import Mathlib

/-!
Verification development for the Compawnion dog-park scraping and
deduplication pipeline (`update_parks.py`).

Coordinates are embedded as exact rationals (`ℚ`); Python float literals in
the source are decimal literals, which `OfScientific` renders exactly.
Python truthiness on strings and lists is embedded as `≠ ""` / `≠ []`.
The in-place mutation of `unique_parks` entries is embedded functionally:
`insertPark` returns the accumulated list with the first close entry
replaced by its merge with the incoming record.
-/

/-- Embedding of the `DogPark` dataclass.  `lat`/`lng` are required fields
(always present), `area_bounds` is `Optional` in the source. -/
structure DogPark where
  name : String
  lat : ℚ
  lng : ℚ
  description : String
  address : String
  amenities : List String
  area_bounds : Option (List (ℚ × ℚ))
  source : String
deriving DecidableEq

/-- The proximity test of `remove_duplicates`:
`lat_diff < 0.001 and lng_diff < 0.001` with absolute differences. -/
def closeEnough (park uniquePark : DogPark) : Bool :=
  decide (|park.lat - uniquePark.lat| < 0.001) &&
  decide (|park.lng - uniquePark.lng| < 0.001)

/-- The merge body of `remove_duplicates`: backfill `description` when the
existing one is falsy and the duplicate's is truthy, and when the duplicate
has a non-empty amenity list replace amenities by
`list(set(unique_park.amenities + park.amenities))` (embedded as `dedup`
of the concatenation; the claims under test only constrain its underlying
set). -/
def mergePark (uniquePark park : DogPark) : DogPark :=
  { uniquePark with
    description :=
      if park.description ≠ "" ∧ uniquePark.description = "" then
        park.description
      else
        uniquePark.description
    amenities :=
      if park.amenities ≠ [] then
        (uniquePark.amenities ++ park.amenities).dedup
      else
        uniquePark.amenities }

/-- One step of `remove_duplicates`: scan `uniqueParks` in order; at the
first close entry merge the incoming record into it (and stop); if no
entry is close, append the record at the end. -/
def insertPark (uniqueParks : List DogPark) (park : DogPark) : List DogPark :=
  match uniqueParks with
  | [] => [park]
  | u :: rest =>
    if closeEnough park u then
      mergePark u park :: rest
    else
      u :: insertPark rest park

/-- Embedding of `remove_duplicates`: fold the input list in order into an
accumulating list of unique parks. -/
def remove_duplicates (parks : List DogPark) : List DogPark :=
  parks.foldl insertPark []

/-- The fields `remove_duplicates` never rewrites:
name, lat, lng, address, area_bounds, source. -/
def coreOf (p : DogPark) :
    String × ℚ × ℚ × String × Option (List (ℚ × ℚ)) × String :=
  (p.name, p.lat, p.lng, p.address, p.area_bounds, p.source)

/-- Pairwise separation: no two entries are both within the latitude and
the longitude threshold of each other. -/
def Separated (l : List DogPark) : Prop :=
  l.Pairwise fun u p => closeEnough p u = false

lemma closeEnough_comm (p q : DogPark) : closeEnough p q = closeEnough q p := by
  simp [closeEnough, abs_sub_comm]

lemma mergePark_core (u p : DogPark) : coreOf (mergePark u p) = coreOf u := rfl

lemma closeEnough_mergePark_left (x u p : DogPark) :
    closeEnough x (mergePark u p) = closeEnough x u := rfl

lemma closeEnough_mergePark_fst (u p x : DogPark) :
    closeEnough (mergePark u p) x = closeEnough u x := rfl

lemma mem_insertPark {acc : List DogPark} {p x : DogPark}
    (hx : x ∈ insertPark acc p) :
    x = p ∨ ∃ y ∈ acc, x = y ∨ x = mergePark y p := by
  induction acc with
  | nil =>
    simp only [insertPark, List.mem_singleton] at hx
    exact Or.inl hx
  | cons u rest ih =>
    rcases hcu : closeEnough p u with _ | _
    · simp only [insertPark, hcu, Bool.false_eq_true, if_false,
        List.mem_cons] at hx
      rcases hx with h | h
      · exact Or.inr ⟨u, List.mem_cons_self u rest, Or.inl h⟩
      · rcases ih h with h' | ⟨y, hy, h'⟩
        · exact Or.inl h'
        · exact Or.inr ⟨y, List.mem_cons_of_mem u hy, h'⟩
    · simp only [insertPark, hcu, if_true, List.mem_cons] at hx
      rcases hx with h | h
      · exact Or.inr ⟨u, List.mem_cons_self u rest, Or.inr h⟩
      · exact Or.inr ⟨x, List.mem_cons_of_mem u h, Or.inl rfl⟩

lemma insertPark_separated {acc : List DogPark} {p : DogPark}
    (h : Separated acc) : Separated (insertPark acc p) := by
  induction acc with
  | nil => simp [insertPark, Separated]
  | cons u rest ih =>
    rcases List.pairwise_cons.mp h with ⟨hu, hrest⟩
    rcases hcu : closeEnough p u with _ | _
    · rw [insertPark, hcu]
      simp only [Bool.false_eq_true, if_false]
      refine List.pairwise_cons.mpr ⟨?_, ih hrest⟩
      intro x hx
      rcases mem_insertPark hx with h' | ⟨y, hy, h' | h'⟩
      · rw [h']; exact hcu
      · rw [h']; exact hu y hy
      · rw [h', closeEnough_mergePark_fst]; exact hu y hy
    · rw [insertPark, hcu]
      simp only [if_true]
      refine List.pairwise_cons.mpr ⟨?_, hrest⟩
      intro x hx
      rw [closeEnough_comm, closeEnough_mergePark_fst, closeEnough_comm]
      exact hu x hx

lemma foldl_insertPark_separated {l acc : List DogPark}
    (h : Separated acc) : Separated (l.foldl insertPark acc) := by
  induction l generalizing acc with
  | nil => exact h
  | cons p l ih => exact ih (insertPark_separated h)

lemma remove_duplicates_separated (l : List DogPark) :
    Separated (remove_duplicates l) :=
  foldl_insertPark_separated (by simp [Separated])

lemma insertPark_of_far {acc : List DogPark} {p : DogPark}
    (h : ∀ u ∈ acc, closeEnough p u = false) :
    insertPark acc p = acc ++ [p] := by
  induction acc with
  | nil => rfl
  | cons u rest ih =>
    rw [insertPark, h u (List.mem_cons_self u rest)]
    simp only [Bool.false_eq_true, if_false, List.cons_append]
    rw [ih fun x hx => h x (List.mem_cons_of_mem u hx)]

lemma foldl_insertPark_of_separated {l acc : List DogPark}
    (h : Separated (acc ++ l)) : l.foldl insertPark acc = acc ++ l := by
  induction l generalizing acc with
  | nil => simp
  | cons p l ih =>
    have hfar : ∀ u ∈ acc, closeEnough p u = false := by
      intro u hu
      exact (List.pairwise_append.mp h).2.2 u hu p
        (List.mem_cons_self p l)
    rw [List.foldl_cons, insertPark_of_far hfar]
    have h' : Separated ((acc ++ [p]) ++ l) := by
      rw [List.append_assoc, List.singleton_append]
      exact h
    rw [ih h', List.append_assoc, List.singleton_append]

lemma map_coreOf_insertPark (acc : List DogPark) (p : DogPark) :
    (insertPark acc p).map coreOf = acc.map coreOf
    ∨ (insertPark acc p).map coreOf = acc.map coreOf ++ [coreOf p] := by
  induction acc with
  | nil => exact Or.inr (by simp [insertPark])
  | cons u rest ih =>
    rcases hcu : closeEnough p u with _ | _
    · rw [insertPark, hcu]
      simp only [Bool.false_eq_true, if_false, List.map_cons]
      rcases ih with h | h
      · exact Or.inl (by rw [h])
      · exact Or.inr (by rw [h, List.cons_append])
    · exact Or.inl (by rw [insertPark, hcu]; simp [mergePark_core])

lemma map_coreOf_foldl_sublist (l acc : List DogPark) :
    List.Sublist ((l.foldl insertPark acc).map coreOf)
      (acc.map coreOf ++ l.map coreOf) := by
  induction l generalizing acc with
  | nil => simp
  | cons p l ih =>
    rw [List.foldl_cons]
    refine (ih (insertPark acc p)).trans ?_
    rcases map_coreOf_insertPark acc p with h | h
    · rw [h, List.map_cons]
      exact (List.Sublist.refl _).append
        (List.sublist_cons_self (coreOf p) (l.map coreOf))
    · rw [h, List.map_cons, List.append_assoc, List.singleton_append]

lemma mem_foldl_insertPark {l acc : List DogPark} {x : DogPark}
    (hx : x ∈ l.foldl insertPark acc) :
    (∃ q ∈ acc, coreOf x = coreOf q) ∨ ∃ q ∈ l, coreOf x = coreOf q := by
  induction l generalizing acc with
  | nil => exact Or.inl ⟨x, hx, rfl⟩
  | cons p l ih =>
    rw [List.foldl_cons] at hx
    rcases ih hx with ⟨q, hq, hcore⟩ | ⟨q, hq, hcore⟩
    · rcases mem_insertPark hq with h' | ⟨y, hy, h' | h'⟩
      · exact Or.inr ⟨p, List.mem_cons_self p l, by rw [hcore, h']⟩
      · exact Or.inl ⟨y, hy, by rw [hcore, h']⟩
      · exact Or.inl ⟨y, hy, by rw [hcore, h', mergePark_core]⟩
    · exact Or.inr ⟨q, List.mem_cons_of_mem p hq, hcore⟩

/-- Sample record used for witnesses: empty description, one amenity. -/
def wpA : DogPark :=
  { name := "A", lat := 43.0, lng := -89.0, description := "",
    address := "1 A St", amenities := ["Fenced"], area_bounds := none,
    source := "S1" }

/-- Sample record 0.0005 away from `wpA` in both coordinates, with a
description and a different amenity. -/
def wpB : DogPark :=
  { name := "B", lat := 43.0005, lng := -89.0005, description := "nice",
    address := "2 B St", amenities := ["Lighting"], area_bounds := none,
    source := "S2" }

/-- Sample record used for the separate-records scenario. -/
def wpC : DogPark :=
  { name := "C", lat := 43.0, lng := -89.0, description := "c",
    address := "", amenities := [], area_bounds := none, source := "S1" }

/-- Sample record whose latitude differs from `wpC` by 0.002. -/
def wpD : DogPark :=
  { name := "D", lat := 43.002, lng := -89.0, description := "d",
    address := "", amenities := [], area_bounds := none, source := "S2" }

/-- C1: `remove_duplicates` processes records in input order against the
accumulated output list; a record is a duplicate of the first accumulated
record whose absolute latitude and longitude differences are both below
0.001, and is then merged rather than appended; two records 0.0005 apart
in both coordinates merge into one, and two records 0.002 apart in
latitude both survive. -/
theorem remove_duplicates_first_match_spec :
    (∀ p u : DogPark, closeEnough p u = true ↔
        |p.lat - u.lat| < 0.001 ∧ |p.lng - u.lng| < 0.001)
    ∧ (∀ (l : List DogPark) (p : DogPark),
        remove_duplicates (l ++ [p]) = insertPark (remove_duplicates l) p)
    ∧ (∀ (p u : DogPark) (rest : List DogPark),
        (closeEnough p u = true →
          insertPark (u :: rest) p = mergePark u p :: rest)
        ∧ (closeEnough p u = false →
          insertPark (u :: rest) p = u :: insertPark rest p))
    ∧ (∀ p q : DogPark, |p.lat - q.lat| = 0.0005 → |p.lng - q.lng| = 0.0005 →
        remove_duplicates [p, q] = [mergePark p q])
    ∧ (∀ p q : DogPark, |p.lat - q.lat| = 0.002 →
        remove_duplicates [p, q] = [p, q]) := by
  refine ⟨?_, ?_, ?_, ?_, ?_⟩
  · intro p u
    simp [closeEnough]
  · intro l p
    simp [remove_duplicates, List.foldl_append]
  · intro p u rest
    constructor <;> intro h <;> simp [insertPark, h]
  · intro p q h1 h2
    have hc : closeEnough q p = true := by
      rw [closeEnough, abs_sub_comm q.lat, abs_sub_comm q.lng, h1, h2]
      norm_num
    simp [remove_duplicates, insertPark, hc]
  · intro p q h1
    have hlat : ¬(|q.lat - p.lat| < 0.001) := by
      rw [abs_sub_comm, h1]
      norm_num
    have hc : closeEnough q p = false := by
      rw [closeEnough, decide_eq_false hlat, Bool.false_and]
    simp [remove_duplicates, insertPark, hc]

/-- Witness for C1 at concrete records: `wpA`/`wpB` are 0.0005 apart in
both coordinates and merge; `wpC`/`wpD` are 0.002 apart in latitude and
both survive. -/
theorem remove_duplicates_first_match_spec_witness :
    remove_duplicates [wpA, wpB] = [mergePark wpA wpB]
    ∧ remove_duplicates [wpC, wpD] = [wpC, wpD] :=
  ⟨remove_duplicates_first_match_spec.2.2.2.1 wpA wpB
      (by norm_num [wpA, wpB]) (by norm_num [wpA, wpB]),
   remove_duplicates_first_match_spec.2.2.2.2 wpC wpD
      (by norm_num [wpC, wpD])⟩

/-- C2: when a duplicate is merged, the existing record's description is
replaced by the duplicate's exactly when the existing one is empty and the
duplicate's is non-empty, and the merged amenity list carries the union of
the two amenity sets. -/
theorem remove_duplicates_merge_rule (u p : DogPark)
    (h : closeEnough p u = true) :
    remove_duplicates [u, p] = [mergePark u p]
    ∧ (u.description = "" ∧ p.description ≠ "" →
        (mergePark u p).description = p.description)
    ∧ (¬(u.description = "" ∧ p.description ≠ "") →
        (mergePark u p).description = u.description)
    ∧ (mergePark u p).amenities.toFinset
        = u.amenities.toFinset ∪ p.amenities.toFinset := by
  refine ⟨by simp [remove_duplicates, insertPark, h], ?_, ?_, ?_⟩
  · rintro ⟨h1, h2⟩
    simp [mergePark, h1, h2]
  · intro hn
    have hn' : ¬(p.description ≠ "" ∧ u.description = "") := by tauto
    simp [mergePark, hn']
  · by_cases ha : p.amenities = []
    · simp [mergePark, ha]
    · ext a
      simp [mergePark, ha, List.mem_dedup]

/-- Witness for C2 at `wpA` (empty description, one amenity) and `wpB`
(non-empty description, one other amenity). -/
theorem remove_duplicates_merge_rule_witness :
    remove_duplicates [wpA, wpB] = [mergePark wpA wpB]
    ∧ (wpA.description = "" ∧ wpB.description ≠ "" →
        (mergePark wpA wpB).description = wpB.description)
    ∧ (¬(wpA.description = "" ∧ wpB.description ≠ "") →
        (mergePark wpA wpB).description = wpA.description)
    ∧ (mergePark wpA wpB).amenities.toFinset
        = wpA.amenities.toFinset ∪ wpB.amenities.toFinset :=
  remove_duplicates_merge_rule wpA wpB
    (by norm_num [closeEnough, wpA, wpB, abs_lt])

/-- C3: running `remove_duplicates` on its own output returns that output
unchanged (same records, same order, same field values). -/
theorem remove_duplicates_idempotent (l : List DogPark) :
    remove_duplicates (remove_duplicates l) = remove_duplicates l := by
  have h := @foldl_insertPark_of_separated (remove_duplicates l) []
    (by simpa using remove_duplicates_separated l)
  simpa [remove_duplicates] using h

/-- C4: merging never rewrites name, address, area_bounds, source,
latitude or longitude — first-seen values win — and consequently every
record surviving `remove_duplicates` agrees with some input record on all
of those fields. -/
theorem merge_preserves_first_seen_fields :
    (∀ u p : DogPark,
      (mergePark u p).name = u.name ∧ (mergePark u p).address = u.address
      ∧ (mergePark u p).area_bounds = u.area_bounds
      ∧ (mergePark u p).source = u.source
      ∧ (mergePark u p).lat = u.lat ∧ (mergePark u p).lng = u.lng)
    ∧ ∀ (l : List DogPark) (x : DogPark), x ∈ remove_duplicates l →
        ∃ q ∈ l, x.name = q.name ∧ x.address = q.address
          ∧ x.area_bounds = q.area_bounds ∧ x.source = q.source
          ∧ x.lat = q.lat ∧ x.lng = q.lng := by
  constructor
  · intro u p
    exact ⟨rfl, rfl, rfl, rfl, rfl, rfl⟩
  · intro l x hx
    simp only [remove_duplicates] at hx
    rcases mem_foldl_insertPark hx with ⟨q, hq, _⟩ | ⟨q, hq, hcore⟩
    · simp at hq
    · refine ⟨q, hq, ?_⟩
      simp only [coreOf, Prod.mk.injEq] at hcore
      exact ⟨hcore.1, hcore.2.2.2.1, hcore.2.2.2.2.1, hcore.2.2.2.2.2,
        hcore.2.1, hcore.2.2.1⟩

/-- Witness for C4: the sole survivor of a singleton input agrees with
that input record on every first-seen field. -/
theorem merge_preserves_first_seen_fields_witness :
    ∃ q ∈ [wpC], wpC.name = q.name ∧ wpC.address = q.address
      ∧ wpC.area_bounds = q.area_bounds ∧ wpC.source = q.source
      ∧ wpC.lat = q.lat ∧ wpC.lng = q.lng :=
  merge_preserves_first_seen_fields.2 [wpC] wpC
    (by simp [remove_duplicates, insertPark])

/-- C10 as stated is false: merging rewrites description/amenities, so the
surviving representative of `wpA`/`wpB` equals neither input record and
the output is not a subsequence of the input. -/
theorem remove_duplicates_not_sublist_counterexample :
    ¬ List.Sublist (remove_duplicates [wpA, wpB]) [wpA, wpB] := by
  have hc : closeEnough wpB wpA = true := by
    norm_num [closeEnough, wpA, wpB, abs_lt]
  have hout : remove_duplicates [wpA, wpB] = [mergePark wpA wpB] := by
    simp [remove_duplicates, insertPark, hc]
  rw [hout]
  intro hsub
  have hm : mergePark wpA wpB ∈ [wpA, wpB] :=
    hsub.subset (List.mem_singleton_self _)
  simp [mergePark, wpA, wpB] at hm

/-- C10 (amended): the output of `remove_duplicates` is pairwise separated
(no two entries are within 0.001 in both coordinates), and its sequence of
first-seen fields (name, lat, lng, address, area_bounds, source) is a
subsequence of the input's, each survivor being the first-seen
representative of its proximity group in original order. -/
theorem remove_duplicates_separation_and_core_subsequence
    (l : List DogPark) :
    (remove_duplicates l).Pairwise
      (fun a b => ¬(|a.lat - b.lat| < 0.001 ∧ |a.lng - b.lng| < 0.001))
    ∧ List.Sublist ((remove_duplicates l).map coreOf) (l.map coreOf) := by
  constructor
  · refine (remove_duplicates_separated l).imp ?_
    intro a b hab hcon
    have ht : closeEnough a b = true := by
      simp [closeEnough, hcon.1, hcon.2]
    rw [closeEnough_comm, hab] at ht
    exact Bool.false_ne_true ht
  · have h := map_coreOf_foldl_sublist l []
    simpa [remove_duplicates] using h

/-- Embedding of an OSM node element as consumed by `_process_osm_node`:
tags are an association list, coordinates come from `lat`/`lon`. -/
structure OsmNodeEl where
  lat : ℚ
  lon : ℚ
  tags : List (String × String)

/-- Embedding of an OSM way element: referenced node ids plus tags. -/
structure OsmWayEl where
  nodes : List Nat
  tags : List (String × String)

/-- Amenity extraction shared verbatim by `_process_osm_node` and
`_process_osm_way`: four fixed tag keys, each tested for the value
`yes`, each contributing one fixed label, in this order. -/
def extractAmenities (tags : List (String × String)) : List String :=
  (if tags.lookup "drinking_water" = some "yes" then ["Water fountain"] else [])
  ++ (if tags.lookup "lit" = some "yes" then ["Lighting"] else [])
  ++ (if tags.lookup "fence" = some "yes" then ["Fenced"] else [])
  ++ (if tags.lookup "toilets" = some "yes" then ["Restrooms"] else [])

/-- Description assembly shared by both element processors: optional
`description` tag, optional `Surface: ...` part, joined by a separator,
with a fallback text when both are absent. -/
def buildDescription (tags : List (String × String)) (dflt : String) : String :=
  let parts :=
    (match tags.lookup "description" with
     | some d => [d]
     | none => [])
    ++ (match tags.lookup "surface" with
        | some s => ["Surface: " ++ s]
        | none => [])
  if parts = [] then dflt else String.intercalate " | " parts

/-- Embedding of `_process_osm_node`: always produces a record, with the
node's own coordinates and no `area_bounds`. -/
def _process_osm_node (node : OsmNodeEl) : DogPark :=
  { name := (node.tags.lookup "name").getD
      ((node.tags.lookup "dog").getD "Unnamed Dog Park")
    lat := node.lat
    lng := node.lon
    description := buildDescription node.tags "Dog park"
    address := (node.tags.lookup "addr:full").getD ""
    amenities := extractAmenities node.tags
    area_bounds := none
    source := "OpenStreetMap" }

/-- Coordinate resolution inside `_process_osm_way`: walk the way's node
ids in order, keeping the coordinates of the ids present in the index. -/
def resolveCoords (nodesDict : List (Nat × (ℚ × ℚ))) (nodeIds : List Nat) :
    List (ℚ × ℚ) :=
  nodeIds.filterMap fun i => nodesDict.lookup i

/-- Embedding of `_process_osm_way`: skip on an empty node list or when no
node id resolves; otherwise produce a record whose coordinates are the
arithmetic mean of the resolved ring and whose `area_bounds` is the
resolved ring itself. -/
def _process_osm_way (way : OsmWayEl) (nodesDict : List (Nat × (ℚ × ℚ))) :
    Option DogPark :=
  if way.nodes = [] then none
  else
    let coords := resolveCoords nodesDict way.nodes
    if coords = [] then none
    else
      some
        { name := (way.tags.lookup "name").getD "Unnamed Dog Park"
          lat := (coords.map Prod.fst).sum / (coords.length : ℚ)
          lng := (coords.map Prod.snd).sum / (coords.length : ℚ)
          description := buildDescription way.tags "Dog park area"
          address := (way.tags.lookup "addr:full").getD ""
          amenities := extractAmenities way.tags
          area_bounds := some coords
          source := "OpenStreetMap" }

lemma resolveCoords_of_total (d : List (Nat × (ℚ × ℚ))) (f : Nat → ℚ × ℚ)
    (ns : List Nat) :
    (∀ i ∈ ns, List.lookup i d = some (f i)) →
    resolveCoords d ns = ns.map f := by
  induction ns with
  | nil => intro _; rfl
  | cons a t ih =>
    intro h
    simp only [resolveCoords, List.filterMap_cons,
      h a (List.mem_cons_self a t), List.map_cons]
    exact congrArg _ (ih fun i hi => h i (List.mem_cons_of_mem a hi))

/-- C5: for a way whose node ids all resolve through the index (to `f`),
a record is produced whose latitude and longitude are the unweighted
arithmetic means of the resolved coordinates and whose `area_bounds` is
the resolved coordinate list in the way's original node order. -/
theorem process_osm_way_centroid_and_ring (way : OsmWayEl)
    (d : List (Nat × (ℚ × ℚ))) (f : Nat → ℚ × ℚ)
    (hne : way.nodes ≠ [])
    (hf : ∀ i ∈ way.nodes, List.lookup i d = some (f i)) :
    ∃ p, _process_osm_way way d = some p
      ∧ p.lat = ((way.nodes.map f).map Prod.fst).sum / (way.nodes.length : ℚ)
      ∧ p.lng = ((way.nodes.map f).map Prod.snd).sum / (way.nodes.length : ℚ)
      ∧ p.area_bounds = some (way.nodes.map f) := by
  have hres : resolveCoords d way.nodes = way.nodes.map f :=
    resolveCoords_of_total d f way.nodes hf
  have hmap : way.nodes.map f ≠ [] := by
    simpa using hne
  refine ⟨{ name := (way.tags.lookup "name").getD "Unnamed Dog Park"
            lat := ((way.nodes.map f).map Prod.fst).sum
              / ((way.nodes.map f).length : ℚ)
            lng := ((way.nodes.map f).map Prod.snd).sum
              / ((way.nodes.map f).length : ℚ)
            description := buildDescription way.tags "Dog park area"
            address := (way.tags.lookup "addr:full").getD ""
            amenities := extractAmenities way.tags
            area_bounds := some (way.nodes.map f)
            source := "OpenStreetMap" }, ?_, ?_, ?_, ?_⟩
  · simp [_process_osm_way, hres, hne, hmap]
  · simp [List.length_map]
  · simp [List.length_map]
  · rfl

/-- C6: a way with an empty node list, or none of whose node ids resolve
in the index, produces no record. -/
theorem process_osm_way_skips_unresolvable (way : OsmWayEl)
    (d : List (Nat × (ℚ × ℚ)))
    (h : way.nodes = [] ∨ resolveCoords d way.nodes = []) :
    _process_osm_way way d = none := by
  rcases h with h | h
  · simp [_process_osm_way, h]
  · by_cases h0 : way.nodes = []
    · simp [_process_osm_way, h0]
    · simp [_process_osm_way, h0, h]

/-- Way element with an empty node list. -/
def wayEmpty : OsmWayEl := { nodes := [], tags := [] }

/-- Way element none of whose node ids are in the index. -/
def wayOrphan : OsmWayEl := { nodes := [99], tags := [("name", "X")] }

/-- Witness for C6: both degenerate ways are skipped. -/
theorem process_osm_way_skips_unresolvable_witness :
    _process_osm_way wayEmpty [] = none
    ∧ _process_osm_way wayOrphan [] = none :=
  ⟨process_osm_way_skips_unresolvable wayEmpty [] (Or.inl rfl),
   process_osm_way_skips_unresolvable wayOrphan [] (Or.inr rfl)⟩

/-- Concrete way element with two resolvable nodes. -/
def wayB : OsmWayEl := { nodes := [10, 11], tags := [("name", "B")] }

/-- Node index resolving both of `wayB`'s node ids. -/
def nodeIndexB : List (Nat × (ℚ × ℚ)) :=
  [(10, (43.081, -89.441)), (11, (43.083, -89.439))]

/-- Resolution function matching `nodeIndexB` on `wayB`'s node ids. -/
def fB : Nat → ℚ × ℚ := fun i =>
  if i = 10 then (43.081, -89.441) else (43.083, -89.439)

/-- Witness for C5 at the concrete way `wayB` over `nodeIndexB`. -/
theorem process_osm_way_centroid_and_ring_witness :
    ∃ p, _process_osm_way wayB nodeIndexB = some p
      ∧ p.lat = ((wayB.nodes.map fB).map Prod.fst).sum / (wayB.nodes.length : ℚ)
      ∧ p.lng = ((wayB.nodes.map fB).map Prod.snd).sum / (wayB.nodes.length : ℚ)
      ∧ p.area_bounds = some (wayB.nodes.map fB) :=
  process_osm_way_centroid_and_ring wayB nodeIndexB fB (by simp [wayB])
    (by intro i hi; fin_cases hi <;> rfl)

/-- The record `_process_osm_way` produces for `wayB` over `nodeIndexB`:
centroid (43.082, -89.44), ring in original node order. -/
def pB : DogPark :=
  { name := "B", lat := 43.082, lng := -89.44,
    description := "Dog park area", address := "",
    amenities := [],
    area_bounds := some [(43.081, -89.441), (43.083, -89.439)],
    source := "OpenStreetMap" }

lemma process_wayB_eq : _process_osm_way wayB nodeIndexB = some pB := by
  have hres : resolveCoords nodeIndexB wayB.nodes
      = [((43.081 : ℚ), (-89.441 : ℚ)), (43.083, -89.439)] := rfl
  have hne : wayB.nodes ≠ [] := by simp [wayB]
  have h2 : ([((43.081 : ℚ), (-89.441 : ℚ)), (43.083, -89.439)]
      : List (ℚ × ℚ)) ≠ [] := by simp
  simp only [_process_osm_way, hres, if_neg hne, if_neg h2]
  refine congrArg some ?_
  have hname : (wayB.tags.lookup "name").getD "Unnamed Dog Park" = "B" := rfl
  have hdesc : buildDescription wayB.tags "Dog park area" = "Dog park area" :=
    rfl
  have haddr : (wayB.tags.lookup "addr:full").getD "" = "" := rfl
  have hamen : extractAmenities wayB.tags = [] := rfl
  rw [hname, hdesc, haddr, hamen]
  simp only [pB, DogPark.mk.injEq]
  norm_num

/-- C7 as stated is false: the tag key `drinking_water` can be present
with value `no`, in which case its label is not included, so amenity
labels are not a pure key-presence test. -/
theorem amenity_presence_counterexample :
    (List.lookup "drinking_water" [("drinking_water", "no")]).isSome = true
    ∧ extractAmenities [("drinking_water", "no")] = [] :=
  ⟨rfl, rfl⟩

/-- C7 (amended): amenity extraction is a fixed mapping from exactly four
tag keys (drinking_water, lit, fence, toilets) to four fixed labels; a
label is included exactly when its key is present with the value `yes`,
no other tag key ever contributes, and both element processors apply
exactly this mapping to the element's tags. -/
theorem extractAmenities_yes_mapping :
    (∀ (tags : List (String × String)) (a : String),
      a ∈ extractAmenities tags ↔
        (a = "Water fountain" ∧ tags.lookup "drinking_water" = some "yes")
        ∨ (a = "Lighting" ∧ tags.lookup "lit" = some "yes")
        ∨ (a = "Fenced" ∧ tags.lookup "fence" = some "yes")
        ∨ (a = "Restrooms" ∧ tags.lookup "toilets" = some "yes"))
    ∧ (∀ node : OsmNodeEl,
        (_process_osm_node node).amenities = extractAmenities node.tags)
    ∧ ∀ (way : OsmWayEl) (d : List (Nat × (ℚ × ℚ))) (p : DogPark),
        _process_osm_way way d = some p →
        p.amenities = extractAmenities way.tags := by
  refine ⟨?_, fun _ => rfl, ?_⟩
  · intro tags a
    unfold extractAmenities
    split <;> split <;> split <;> split <;> simp_all
  · intro way d p hp
    simp only [_process_osm_way] at hp
    split at hp
    · exact absurd hp (by simp)
    · split at hp
      · exact absurd hp (by simp)
      · rw [← Option.some.inj hp]

/-- Witness for C7's processor clause: the record produced for `wayB`
carries exactly the amenities extracted from `wayB`'s tags. -/
theorem extractAmenities_yes_mapping_witness :
    pB.amenities = extractAmenities wayB.tags :=
  extractAmenities_yes_mapping.2.2 wayB nodeIndexB pB process_wayB_eq

/-- Embedding of the static `_scrape_madison_parks` source: the fixed
hand-curated record list, every entry with coordinates and no
`area_bounds`. -/
def madison_parks : List DogPark :=
  [{ name := "Sycamore Dog Park", lat := 43.0848, lng := -89.4445,
     description := "Large fenced area with separate small dog section",
     address := "Sycamore Ave, Madison, WI",
     amenities := ["Fenced", "Separate small dog area", "Water fountain"],
     area_bounds := none, source := "Madison Parks Department" },
   { name := "Yahara Heights Park", lat := 43.1101, lng := -89.3156,
     description := "Popular dog-friendly park with trails",
     address := "Yahara Heights Rd, Madison, WI",
     amenities := ["Trails", "Parking"],
     area_bounds := none, source := "Madison Parks Department" },
   { name := "Warner Park Dog Exercise Area", lat := 43.1141, lng := -89.3537,
     description := "Spacious off-leash area near the lake",
     address := "Warner Park, Madison, WI",
     amenities := ["Fenced", "Lake access", "Parking"],
     area_bounds := none, source := "Madison Parks Department" },
   { name := "Quann Dog Park", lat := 43.0245, lng := -89.5137,
     description := "Well-maintained dog park on the west side",
     address := "Quann Park, Madison, WI",
     amenities := ["Fenced", "Water fountain", "Parking"],
     area_bounds := none, source := "Madison Parks Department" },
   { name := "Token Creek Dog Park", lat := 43.1499, lng := -89.2561,
     description := "Large rural dog park with nature trails",
     address := "Token Creek County Park, WI",
     amenities := ["Large area", "Trails", "Parking"],
     area_bounds := none, source := "Madison Parks Department" }]

/-- C9: node records and static Madison records carry no `area_bounds`
(and node records take the element's own coordinates), way records carry
`some` non-empty resolved ring, and deduplication preserves `area_bounds`,
latitude and longitude of every surviving record from some input record.
Latitude/longitude are total fields of `DogPark`, so they are present on
every record by construction. -/
theorem area_bounds_invariant :
    (∀ node : OsmNodeEl,
      (_process_osm_node node).area_bounds = none
      ∧ (_process_osm_node node).lat = node.lat
      ∧ (_process_osm_node node).lng = node.lon)
    ∧ (∀ q ∈ madison_parks, q.area_bounds = none)
    ∧ (∀ (way : OsmWayEl) (d : List (Nat × (ℚ × ℚ))) (p : DogPark),
        _process_osm_way way d = some p →
        p.area_bounds = some (resolveCoords d way.nodes)
        ∧ resolveCoords d way.nodes ≠ [])
    ∧ ∀ (l : List DogPark) (x : DogPark), x ∈ remove_duplicates l →
        ∃ q ∈ l, x.area_bounds = q.area_bounds
          ∧ x.lat = q.lat ∧ x.lng = q.lng := by
  refine ⟨fun node => ⟨rfl, rfl, rfl⟩, ?_, ?_, ?_⟩
  · intro q hq
    simp only [madison_parks, List.mem_cons, List.not_mem_nil,
      or_false] at hq
    rcases hq with rfl | rfl | rfl | rfl | rfl <;> rfl
  · intro way d p hp
    simp only [_process_osm_way] at hp
    split at hp
    · exact absurd hp (by simp)
    · split at hp
      · exact absurd hp (by simp)
      · rename_i hc2
        exact ⟨by rw [← Option.some.inj hp], hc2⟩
  · intro l x hx
    simp only [remove_duplicates] at hx
    rcases mem_foldl_insertPark hx with ⟨q, hq, _⟩ | ⟨q, hq, hcore⟩
    · simp at hq
    · refine ⟨q, hq, ?_⟩
      simp only [coreOf, Prod.mk.injEq] at hcore
      exact ⟨hcore.2.2.2.2.1, hcore.2.1, hcore.2.2.1⟩

/-- Witness for C9 at the concrete way `wayB` (non-empty ring) and a
singleton dedup run. -/
theorem area_bounds_invariant_witness :
    (pB.area_bounds = some (resolveCoords nodeIndexB wayB.nodes)
      ∧ resolveCoords nodeIndexB wayB.nodes ≠ [])
    ∧ ∃ q ∈ [wpC], wpC.area_bounds = q.area_bounds
        ∧ wpC.lat = q.lat ∧ wpC.lng = q.lng :=
  ⟨area_bounds_invariant.2.2.1 wayB nodeIndexB pB process_wayB_eq,
   area_bounds_invariant.2.2.2 [wpC] wpC
     (by simp [remove_duplicates, insertPark])⟩

/-- One geocoding search result as the source reads it: `float(...)`
parses of the `lat`/`lon` strings, `none` standing for a parse failure
that raises inside the `try` block. -/
structure GeoHit where
  lat : Option ℚ
  lon : Option ℚ

/-- Outcome of the outbound search request in `geocode_location`:
a network/HTTP error (`requests` exception or `raise_for_status`), a
JSON parse error from `response.json()`, or a parsed result list. -/
inductive SearchOutcome where
  | netError (msg : String)
  | badJson (msg : String)
  | results (data : List GeoHit)

/-- The `try`-block body of `geocode_location`: errors propagate as
`Except.error`; an empty result list returns the Madison default without
raising; a non-empty list returns the first hit's parsed coordinates,
raising if either parse fails. -/
def geocodeAttempt : SearchOutcome → Except String (ℚ × ℚ)
  | SearchOutcome.netError m => Except.error m
  | SearchOutcome.badJson m => Except.error m
  | SearchOutcome.results [] => Except.ok (43.0731, -89.4012)
  | SearchOutcome.results (h :: _) =>
    match h.lat, h.lon with
    | some la, some lo => Except.ok (la, lo)
    | _, _ => Except.error "could not convert string to float"

/-- Embedding of `geocode_location`: the catch-all `except` turns every
error from the `try` body into the hardcoded Madison default, so the
function is total and never propagates an exception. -/
def geocode_location (o : SearchOutcome) : ℚ × ℚ :=
  match geocodeAttempt o with
  | Except.ok v => v
  | Except.error _ => (43.0731, -89.4012)

/-- C8: `geocode_location` returns the fixed default (43.0731, -89.4012)
on a network error, a JSON parse error, an empty result set, or an
unparsable first hit, and otherwise the first hit's coordinates; its
total return type reflects the catch-all `except` — no exception reaches
the caller. -/
theorem geocode_location_fallback :
    (∀ m, geocode_location (SearchOutcome.netError m) = (43.0731, -89.4012))
    ∧ (∀ m, geocode_location (SearchOutcome.badJson m) = (43.0731, -89.4012))
    ∧ geocode_location (SearchOutcome.results []) = (43.0731, -89.4012)
    ∧ (∀ (h : GeoHit) (t : List GeoHit) (la lo : ℚ),
        h.lat = some la → h.lon = some lo →
        geocode_location (SearchOutcome.results (h :: t)) = (la, lo))
    ∧ ∀ (h : GeoHit) (t : List GeoHit), h.lat = none ∨ h.lon = none →
        geocode_location (SearchOutcome.results (h :: t))
          = (43.0731, -89.4012) := by
  refine ⟨fun m => rfl, fun m => rfl, rfl, ?_, ?_⟩
  · intro h t la lo h1 h2
    simp [geocode_location, geocodeAttempt, h1, h2]
  · intro h t hor
    rcases hor with h1 | h1
    · simp [geocode_location, geocodeAttempt, h1]
    · cases hl : h.lat with
      | none => simp [geocode_location, geocodeAttempt, hl]
      | some la => simp [geocode_location, geocodeAttempt, hl, h1]

/-- A well-formed first search hit. -/
def hitOk : GeoHit := { lat := some 43.07, lon := some (-89.4) }

/-- Witness for C8: a parsable first hit is returned as-is, a network
error falls back to the default. -/
theorem geocode_location_fallback_witness :
    geocode_location (SearchOutcome.results [hitOk]) = (43.07, -89.4)
    ∧ geocode_location (SearchOutcome.netError "timeout")
        = (43.0731, -89.4012) :=
  ⟨geocode_location_fallback.2.2.2.1 hitOk [] 43.07 (-89.4) rfl rfl,
   geocode_location_fallback.1 "timeout"⟩
